import Mathlib

set_option linter.unusedSectionVars false

/-!
Verification development for the reactive state-container repository
(`component-store.ts` and its duplicated `CustomStore` variant).

The embedding is shallow:

* A JavaScript object is an ordered association list `Obj α`
  (`List (String × α)`); `for (const key in o)` iterates `Obj.keys o`
  in order, property read `o[k]` is `Obj.lookup o k` (with `none`
  standing for `undefined`), property write `o[k] = v` is `Obj.set o k v`,
  and the spread merge `\x7b...a, ...b\x7d` is `Obj.merge a b`.
* Reference identity (`!==`) on values is modelled by (decidable)
  equality on an abstract value type `Val`: two distinct references are
  two distinct elements of `Val`.
* A `BehaviorSubject` is modelled by its current value; emissions are
  recorded explicitly in an event list (`SEvent`), so "the subject
  emitted `v`" is "`cellEmit k v` is in the event list".
* A transition function that may throw is `Obj Val → Except Unit (Obj Val)`;
  `Except.error` is a thrown exception.
-/

/-- A JavaScript object: an ordered association list of string keys. -/
abbrev Obj (α : Type) : Type := List (String × α)

namespace Obj

/-- Property read `o[k]`: the value at the first occurrence of key `k`,
`none` when the key is absent (JS `undefined`). -/
def lookup {α : Type} : Obj α → String → Option α
  | [], _ => none
  | (k', v) :: rest, k => if k' = k then some v else lookup rest k

/-- The keys of an object, in property order. -/
def keys {α : Type} (o : Obj α) : List String :=
  o.map Prod.fst

/-- Property write `o[k] = v`: replaces the value at an existing key in
place, appends the key otherwise. -/
def set {α : Type} : Obj α → String → α → Obj α
  | [], k, v => [(k, v)]
  | (k', v') :: rest, k, v =>
    if k' = k then (k, v) :: rest else (k', v') :: set rest k v

/-- The object spread `\x7b...base, ...patchObj\x7d`. -/
def merge {α : Type} (base patchObj : Obj α) : Obj α :=
  patchObj.foldl (fun acc kv => set acc kv.1 kv.2) base

theorem keys_cons {α : Type} (kv : String × α) (rest : Obj α) :
    keys (kv :: rest) = kv.1 :: keys rest := rfl

theorem lookup_eq_none_iff {α : Type} (o : Obj α) (k : String) :
    lookup o k = none ↔ k ∉ keys o := by
  induction o with
  | nil => simp [lookup, keys]
  | cons kv rest ih =>
    obtain ⟨k', v⟩ := kv
    by_cases h : k' = k
    · subst h
      simp [lookup, keys_cons]
    · have hne : ¬ k = k' := fun hk => h hk.symm
      simp [lookup, keys_cons, h, hne, ih]

theorem lookup_isSome_iff {α : Type} (o : Obj α) (k : String) :
    (lookup o k).isSome ↔ k ∈ keys o := by
  rw [Option.isSome_iff_ne_none, ne_eq, lookup_eq_none_iff]
  exact not_not

theorem lookup_set {α : Type} (o : Obj α) (k : String) (v : α) (k' : String) :
    lookup (set o k v) k' = if k = k' then some v else lookup o k' := by
  induction o with
  | nil =>
    by_cases h : k = k' <;> simp [set, lookup, h]
  | cons kv rest ih =>
    obtain ⟨k₀, v₀⟩ := kv
    by_cases h₀ : k₀ = k
    · subst h₀
      by_cases h : k₀ = k' <;> simp [set, lookup, h]
    · by_cases h : k₀ = k'
      · subst h
        have : ¬ k = k₀ := fun hk => h₀ hk.symm
        simp [set, lookup, h₀, this]
      · simp [set, lookup, h₀, h, ih]

theorem keys_set {α : Type} (o : Obj α) (k : String) (v : α) :
    keys (set o k v) = if k ∈ keys o then keys o else keys o ++ [k] := by
  induction o with
  | nil => simp [set, keys]
  | cons kv rest ih =>
    obtain ⟨k₀, v₀⟩ := kv
    by_cases h₀ : k₀ = k
    · subst h₀
      simp [set, keys_cons]
    · have hne : ¬ k = k₀ := fun hk => h₀ hk.symm
      simp only [set, if_neg h₀, keys_cons]
      rw [ih]
      by_cases hk : k ∈ keys rest
      · rw [if_pos hk, if_pos (show k ∈ k₀ :: keys rest from List.mem_cons_of_mem _ hk)]
      · rw [if_neg hk, if_neg (show ¬ k ∈ k₀ :: keys rest by simp [hne, hk])]
        simp

theorem set_of_not_mem {α : Type} (o : Obj α) (k : String) (v : α)
    (h : k ∉ keys o) : set o k v = o ++ [(k, v)] := by
  induction o with
  | nil => simp [set]
  | cons kv rest ih =>
    obtain ⟨k₀, v₀⟩ := kv
    simp only [keys, List.map_cons, List.mem_cons] at h
    push_neg at h
    have h₀ : ¬ k₀ = k := fun hk => h.1 hk.symm
    simp [set, h₀, ih (by simpa [keys] using h.2)]

theorem keys_nodup_set {α : Type} (o : Obj α) (k : String) (v : α)
    (h : (keys o).Nodup) : (keys (set o k v)).Nodup := by
  rw [keys_set]
  by_cases hk : k ∈ keys o <;> simp [hk, h, List.Nodup.append, List.disjoint_singleton]

theorem lookup_merge {α : Type} (base patchObj : Obj α)
    (hnd : (keys patchObj).Nodup) (k : String) :
    lookup (merge base patchObj) k =
      match lookup patchObj k with
      | some v => some v
      | none => lookup base k := by
  induction patchObj generalizing base with
  | nil => simp [merge, lookup]
  | cons kv rest ih =>
    obtain ⟨k₀, v₀⟩ := kv
    simp only [keys, List.map_cons, List.nodup_cons] at hnd
    have hmerge : merge base ((k₀, v₀) :: rest) = merge (set base k₀ v₀) rest := rfl
    rw [hmerge, ih _ (by simpa [keys] using hnd.2)]
    by_cases h : k₀ = k
    · subst h
      have hrest : lookup rest k₀ = none := by
        rw [lookup_eq_none_iff]
        simpa [keys] using hnd.1
      simp [lookup, hrest, lookup_set]
    · simp [lookup, h, lookup_set]

theorem keys_nodup_merge {α : Type} (base patchObj : Obj α)
    (h : (keys base).Nodup) : (keys (merge base patchObj)).Nodup := by
  induction patchObj generalizing base with
  | nil => simpa [merge]
  | cons kv rest ih =>
    obtain ⟨k₀, v₀⟩ := kv
    exact ih (set base k₀ v₀) (keys_nodup_set base k₀ v₀ h)

theorem mem_keys_merge {α : Type} (base patchObj : Obj α)
    (hnd : (keys patchObj).Nodup) (k : String) :
    k ∈ keys (merge base patchObj) ↔ k ∈ keys base ∨ k ∈ keys patchObj := by
  rw [← lookup_isSome_iff, lookup_merge base patchObj hnd k]
  rcases hp : lookup patchObj k with _ | v
  · rw [lookup_eq_none_iff] at hp
    simp [lookup_isSome_iff, hp]
  · have : k ∈ keys patchObj := by
      rw [← lookup_isSome_iff, hp]; rfl
    simp [this]

end Obj

/-- An emission on one of the container's streams: `snapEmit s` is an
emission of the full snapshot `s` on `stateSubject$` (hence on `state$`),
`cellEmit k v` is an emission of `v` on the field cell `state[k]`
(a cell can hold `undefined`, hence `Option`). -/
inductive SEvent (Val : Type) where
  | snapEmit (snap : Obj Val)
  | cellEmit (key : String) (value : Option Val)
deriving DecidableEq

/-- A completion event produced by `ngOnDestroy`. -/
inductive DEvent where
  | cellComplete (key : String)
  | snapComplete
deriving DecidableEq

/-- The state of a `ComponentStore<State>` instance
(`component-store.ts`): `stateSubject` is the current value of the
snapshot stream `stateSubject$`, `state` is the field cell table
(`ReactiveState<State>`), each cell modelled by its current value. -/
structure ComponentStore (Val : Type) where
  stateSubject : Obj Val
  state : Obj (Option Val)
deriving DecidableEq

/-- The state of a `CustomStore<State>` instance (the duplicated
implementation), with the same two fields as `ComponentStore`. -/
structure CustomStore (Val : Type) where
  stateSubject : Obj Val
  state : Obj (Option Val)
deriving DecidableEq

/-- The result of running one mutation primitive: the store state
afterwards, the emissions it produced in order, and whether the call
threw. -/
structure MutOutcome (S : Type) (Val : Type) where
  store : S
  events : List (SEvent Val)
  threw : Bool
deriving DecidableEq

namespace ComponentStore

variable {Val : Type} [DecidableEq Val] {P : Type}

/-- `constructor(state)`: seed `stateSubject$` with the initial state and
build one `BehaviorSubject` per field of the initial state
(`for (const key in state) this.state[key] = new BehaviorSubject(state[key])`). -/
def construct (initial : Obj Val) : ComponentStore Val :=
  { stateSubject := initial
    state := initial.map (fun kv => (kv.1, some kv.2)) }

/-- The `for (const key in stateToBeChecked)` loop of
`checkAndUpdateState`, iterating the candidate keys in order: reading a
missing field cell throws (`this.state[key].getValue()` on `undefined`),
which aborts the loop; otherwise the cell emits and is updated exactly
when `latestState[key] !== cell.getValue()`.  Returns the cell table,
the cell emissions in order, and whether the loop threw. -/
def checkAndUpdateLoop (cells : Obj (Option Val)) (latestState : Obj Val) :
    List String → Obj (Option Val) × List (SEvent Val) × Bool
  | [] => (cells, [], false)
  | key :: rest =>
    match Obj.lookup cells key with
    | none => (cells, [], true)
    | some valueOfOutdatedState =>
      let valueOfLatestState := Obj.lookup latestState key
      if valueOfLatestState = valueOfOutdatedState then
        checkAndUpdateLoop cells latestState rest
      else
        let tail :=
          checkAndUpdateLoop (Obj.set cells key valueOfLatestState) latestState rest
        (tail.1, SEvent.cellEmit key valueOfLatestState :: tail.2.1, tail.2.2)

/-- `checkAndUpdateState(stateToBeChecked)`, with `latestState` the
current value of `stateSubject$` (read at entry). -/
def checkAndUpdateState (cells : Obj (Option Val)) (latestState : Obj Val)
    (stateToBeChecked : Obj Val) : Obj (Option Val) × List (SEvent Val) × Bool :=
  checkAndUpdateLoop cells latestState (Obj.keys stateToBeChecked)

/-- `setState(stateOrSetFn)`: compute the new full snapshot (either the
literal argument, or the function applied to the frozen current
snapshot, which may throw), publish it on `stateSubject$`, then
reconcile with the new snapshot itself as candidate set. -/
def setState (st : ComponentStore Val)
    (stateOrSetFn : Obj Val ⊕ (Obj Val → Except Unit (Obj Val))) :
    MutOutcome (ComponentStore Val) Val :=
  match (match stateOrSetFn with
         | Sum.inl s => Except.ok s
         | Sum.inr setFn => setFn st.stateSubject) with
  | Except.error _ => ⟨st, [], true⟩
  | Except.ok updatedState =>
    let r := checkAndUpdateState st.state updatedState updatedState
    ⟨⟨updatedState, r.1⟩, SEvent.snapEmit updatedState :: r.2.1, r.2.2⟩

/-- `patchState(partialStateOrPatchFn)`: compute the update part, publish
the spread merge `\x7b...frozenState, ...part\x7d` on `stateSubject$`, then
reconcile with only the update part as candidate set. -/
def patchState (st : ComponentStore Val)
    (stateOrPatchFn : Obj Val ⊕ (Obj Val → Except Unit (Obj Val))) :
    MutOutcome (ComponentStore Val) Val :=
  let frozenState := st.stateSubject
  match (match stateOrPatchFn with
         | Sum.inl p => Except.ok p
         | Sum.inr patchFn => patchFn frozenState) with
  | Except.error _ => ⟨st, [], true⟩
  | Except.ok updatedPart =>
    let merged := Obj.merge frozenState updatedPart
    let r := checkAndUpdateState st.state merged updatedPart
    ⟨⟨merged, r.1⟩, SEvent.snapEmit merged :: r.2.1, r.2.2⟩

/-- `updater(updaterFn)`: the returned callable applies `updaterFn` to
the frozen current snapshot and the payload (which may throw), publishes
the result on `stateSubject$`, then reconciles with it as candidate. -/
def updater (updaterFn : Obj Val → P → Except Unit (Obj Val)) :
    P → ComponentStore Val → MutOutcome (ComponentStore Val) Val :=
  fun payload st =>
    match updaterFn st.stateSubject payload with
    | Except.error _ => ⟨st, [], true⟩
    | Except.ok updatedState =>
      let r := checkAndUpdateState st.state updatedState updatedState
      ⟨⟨updatedState, r.1⟩, SEvent.snapEmit updatedState :: r.2.1, r.2.2⟩

/-- Shape 1 of `select`: `selectFn(this.state).asObservable()` — the
selector function picks a cell (or any view) out of the field cell
table; `asObservable` is the identity on the modelled value. -/
def select {α : Type} (st : ComponentStore Val)
    (selectFn : Obj (Option Val) → α) : α :=
  selectFn st.state

/-- `ngOnDestroy()`: complete every field cell in field order, then the
snapshot subject. -/
def ngOnDestroy (st : ComponentStore Val) : List DEvent :=
  (Obj.keys st.state).map DEvent.cellComplete ++ [DEvent.snapComplete]

end ComponentStore

namespace CustomStore

variable {Val : Type} [DecidableEq Val] {P : Type}

/-- `constructor(state)` of `CustomStore`. -/
def construct (initial : Obj Val) : CustomStore Val :=
  { stateSubject := initial
    state := initial.map (fun kv => (kv.1, some kv.2)) }

/-- The `for (const key in stateToBeChecked)` loop of `CustomStore`'s
`checkAndUpdateState`. -/
def checkAndUpdateLoop (cells : Obj (Option Val)) (latestState : Obj Val) :
    List String → Obj (Option Val) × List (SEvent Val) × Bool
  | [] => (cells, [], false)
  | key :: rest =>
    match Obj.lookup cells key with
    | none => (cells, [], true)
    | some valueOfOutdatedState =>
      let valueOfLatestState := Obj.lookup latestState key
      if valueOfLatestState = valueOfOutdatedState then
        checkAndUpdateLoop cells latestState rest
      else
        let tail :=
          checkAndUpdateLoop (Obj.set cells key valueOfLatestState) latestState rest
        (tail.1, SEvent.cellEmit key valueOfLatestState :: tail.2.1, tail.2.2)

/-- `CustomStore`'s `checkAndUpdateState(stateToBeChecked)`. -/
def checkAndUpdateState (cells : Obj (Option Val)) (latestState : Obj Val)
    (stateToBeChecked : Obj Val) : Obj (Option Val) × List (SEvent Val) × Bool :=
  checkAndUpdateLoop cells latestState (Obj.keys stateToBeChecked)

/-- `CustomStore`'s `setState(stateOrSetFn)`. -/
def setState (st : CustomStore Val)
    (stateOrSetFn : Obj Val ⊕ (Obj Val → Except Unit (Obj Val))) :
    MutOutcome (CustomStore Val) Val :=
  match (match stateOrSetFn with
         | Sum.inl s => Except.ok s
         | Sum.inr setFn => setFn st.stateSubject) with
  | Except.error _ => ⟨st, [], true⟩
  | Except.ok updatedState =>
    let r := checkAndUpdateState st.state updatedState updatedState
    ⟨⟨updatedState, r.1⟩, SEvent.snapEmit updatedState :: r.2.1, r.2.2⟩

/-- `CustomStore`'s `patchState(partialStateOrPatchFn)`. -/
def patchState (st : CustomStore Val)
    (stateOrPatchFn : Obj Val ⊕ (Obj Val → Except Unit (Obj Val))) :
    MutOutcome (CustomStore Val) Val :=
  let frozenState := st.stateSubject
  match (match stateOrPatchFn with
         | Sum.inl p => Except.ok p
         | Sum.inr patchFn => patchFn frozenState) with
  | Except.error _ => ⟨st, [], true⟩
  | Except.ok updatedPart =>
    let merged := Obj.merge frozenState updatedPart
    let r := checkAndUpdateState st.state merged updatedPart
    ⟨⟨merged, r.1⟩, SEvent.snapEmit merged :: r.2.1, r.2.2⟩

/-- `CustomStore`'s `updater(updaterFn)`. -/
def updater (updaterFn : Obj Val → P → Except Unit (Obj Val)) :
    P → CustomStore Val → MutOutcome (CustomStore Val) Val :=
  fun payload st =>
    match updaterFn st.stateSubject payload with
    | Except.error _ => ⟨st, [], true⟩
    | Except.ok updatedState =>
      let r := checkAndUpdateState st.state updatedState updatedState
      ⟨⟨updatedState, r.1⟩, SEvent.snapEmit updatedState :: r.2.1, r.2.2⟩

/-- `CustomStore`'s single (shape 1) `select`:
`selectFn(this.state).asObservable()`. -/
def select {α : Type} (st : CustomStore Val)
    (selectFn : Obj (Option Val) → α) : α :=
  selectFn st.state

/-- `CustomStore`'s `ngOnDestroy()`. -/
def ngOnDestroy (st : CustomStore Val) : List DEvent :=
  (Obj.keys st.state).map DEvent.cellComplete ++ [DEvent.snapComplete]

/-- The field-for-field correspondence between the two store classes
(their state has the same shape). -/
def toComponentStore (st : CustomStore Val) : ComponentStore Val :=
  ⟨st.stateSubject, st.state⟩

end CustomStore

/-- One call to a mutation primitive, as used when running a sequence of
mutations against a store: a literal or functional `setState`, a literal
or functional `patchState`, or an invocation of an `updater`-produced
callable with its payload. -/
inductive MutOp (Val : Type) (P : Type) where
  | setL (u : Obj Val)
  | setF (f : Obj Val → Except Unit (Obj Val))
  | patchL (p : Obj Val)
  | patchF (f : Obj Val → Except Unit (Obj Val))
  | upd (f : Obj Val → P → Except Unit (Obj Val)) (payload : P)

namespace ComponentStore

variable {Val : Type} [DecidableEq Val] {P : Type}

/-- Dispatch one mutation call to the corresponding primitive. -/
def applyOp (st : ComponentStore Val) : MutOp Val P → MutOutcome (ComponentStore Val) Val
  | MutOp.setL u => setState st (Sum.inl u)
  | MutOp.setF f => setState st (Sum.inr f)
  | MutOp.patchL p => patchState st (Sum.inl p)
  | MutOp.patchF f => patchState st (Sum.inr f)
  | MutOp.upd f payload => updater f payload st

/-- The store states reached after each mutation of a sequence. -/
def runTrace (st : ComponentStore Val) : List (MutOp Val P) → List (ComponentStore Val)
  | [] => []
  | op :: rest =>
    let st' := (applyOp st op).store
    st' :: runTrace st' rest

/-- All emissions produced by a sequence of mutations, in order. -/
def runEvents (st : ComponentStore Val) : List (MutOp Val P) → List (SEvent Val)
  | [] => []
  | op :: rest =>
    let out := applyOp st op
    out.events ++ runEvents out.store rest

/-- The store state after a whole sequence of mutations. -/
def runFinal (st : ComponentStore Val) : List (MutOp Val P) → ComponentStore Val
  | [] => st
  | op :: rest => runFinal (applyOp st op).store rest

end ComponentStore

namespace CustomStore

variable {Val : Type} [DecidableEq Val] {P : Type}

/-- Dispatch one mutation call to the corresponding `CustomStore` primitive. -/
def applyOp (st : CustomStore Val) : MutOp Val P → MutOutcome (CustomStore Val) Val
  | MutOp.setL u => setState st (Sum.inl u)
  | MutOp.setF f => setState st (Sum.inr f)
  | MutOp.patchL p => patchState st (Sum.inl p)
  | MutOp.patchF f => patchState st (Sum.inr f)
  | MutOp.upd f payload => updater f payload st

/-- All emissions produced by a sequence of mutations on a `CustomStore`. -/
def runEvents (st : CustomStore Val) : List (MutOp Val P) → List (SEvent Val)
  | [] => []
  | op :: rest =>
    let out := applyOp st op
    out.events ++ runEvents out.store rest

/-- The `CustomStore` state after a whole sequence of mutations. -/
def runFinal (st : CustomStore Val) : List (MutOp Val P) → CustomStore Val
  | [] => st
  | op :: rest => runFinal (applyOp st op).store rest

end CustomStore

namespace ComponentStore

variable {Val : Type} [DecidableEq Val]

theorem checkAndUpdateLoop_no_throw (cells : Obj (Option Val)) (latestState : Obj Val)
    (cand : List String) (hall : ∀ k ∈ cand, (Obj.lookup cells k).isSome) :
    (checkAndUpdateLoop cells latestState cand).2.2 = false ∧
      ∀ k, Obj.lookup (checkAndUpdateLoop cells latestState cand).1 k =
        if k ∈ cand then some (Obj.lookup latestState k) else Obj.lookup cells k := by
  induction cand generalizing cells with
  | nil => simp [checkAndUpdateLoop]
  | cons key rest ih =>
    obtain ⟨vOld, hOld⟩ := Option.isSome_iff_exists.mp (hall key (List.mem_cons_self _ _))
    by_cases heq : Obj.lookup latestState key = vOld
    · have hstep : checkAndUpdateLoop cells latestState (key :: rest) =
          checkAndUpdateLoop cells latestState rest := by
        simp [checkAndUpdateLoop, hOld, heq]
      rw [hstep]
      obtain ⟨hthrew, hlook⟩ := ih cells (fun k hk => hall k (List.mem_cons_of_mem _ hk))
      refine ⟨hthrew, fun k => ?_⟩
      rw [hlook k]
      by_cases hkr : k ∈ rest
      · simp [hkr]
      · by_cases hkk : k = key
        · subst hkk
          simp [hkr, hOld, heq]
        · simp [hkr, hkk]
    · set cells₂ := Obj.set cells key (Obj.lookup latestState key) with hcells₂
      have hstep : checkAndUpdateLoop cells latestState (key :: rest) =
          ((checkAndUpdateLoop cells₂ latestState rest).1,
            SEvent.cellEmit key (Obj.lookup latestState key) ::
              (checkAndUpdateLoop cells₂ latestState rest).2.1,
            (checkAndUpdateLoop cells₂ latestState rest).2.2) := by
        simp [checkAndUpdateLoop, hOld, heq, hcells₂]
      have hall₂ : ∀ k ∈ rest, (Obj.lookup cells₂ k).isSome := by
        intro k hk
        rw [hcells₂, Obj.lookup_set]
        by_cases hkk : key = k
        · simp [hkk]
        · simp only [if_neg hkk]
          exact hall k (List.mem_cons_of_mem _ hk)
      obtain ⟨hthrew, hlook⟩ := ih cells₂ hall₂
      rw [hstep]
      refine ⟨hthrew, fun k => ?_⟩
      simp only
      rw [hlook k]
      by_cases hkr : k ∈ rest
      · simp [hkr]
      · by_cases hkk : k = key
        · subst hkk
          simp [hkr, hcells₂, Obj.lookup_set]
        · have : ¬ key = k := fun h => hkk h.symm
          simp [hkr, hkk, hcells₂, Obj.lookup_set, this]

theorem checkAndUpdateLoop_mem_events (cells : Obj (Option Val)) (latestState : Obj Val)
    (cand : List String) (hnd : cand.Nodup)
    (hall : ∀ k ∈ cand, (Obj.lookup cells k).isSome) (f : String) (v : Option Val) :
    SEvent.cellEmit f v ∈ (checkAndUpdateLoop cells latestState cand).2.1 ↔
      f ∈ cand ∧ v = Obj.lookup latestState f ∧
        Obj.lookup cells f ≠ some (Obj.lookup latestState f) := by
  induction cand generalizing cells with
  | nil => simp [checkAndUpdateLoop]
  | cons key rest ih =>
    obtain ⟨hknr, hndr⟩ := List.nodup_cons.mp hnd
    obtain ⟨vOld, hOld⟩ := Option.isSome_iff_exists.mp (hall key (List.mem_cons_self _ _))
    by_cases heq : Obj.lookup latestState key = vOld
    · have hstep : checkAndUpdateLoop cells latestState (key :: rest) =
          checkAndUpdateLoop cells latestState rest := by
        simp [checkAndUpdateLoop, hOld, heq]
      rw [hstep, ih cells hndr (fun k hk => hall k (List.mem_cons_of_mem _ hk))]
      by_cases hfk : f = key
      · subst hfk
        simp [hknr, hOld, heq]
      · simp [hfk]
    · set cells₂ := Obj.set cells key (Obj.lookup latestState key) with hcells₂
      have hstep : checkAndUpdateLoop cells latestState (key :: rest) =
          ((checkAndUpdateLoop cells₂ latestState rest).1,
            SEvent.cellEmit key (Obj.lookup latestState key) ::
              (checkAndUpdateLoop cells₂ latestState rest).2.1,
            (checkAndUpdateLoop cells₂ latestState rest).2.2) := by
        simp [checkAndUpdateLoop, hOld, heq, hcells₂]
      have hall₂ : ∀ k ∈ rest, (Obj.lookup cells₂ k).isSome := by
        intro k hk
        rw [hcells₂, Obj.lookup_set]
        by_cases hkk : key = k
        · simp [hkk]
        · simp only [if_neg hkk]
          exact hall k (List.mem_cons_of_mem _ hk)
      rw [hstep]
      simp only [List.mem_cons, SEvent.cellEmit.injEq]
      rw [ih cells₂ hndr hall₂]
      by_cases hfk : f = key
      · subst hfk
        have hchanged : Obj.lookup cells f ≠ some (Obj.lookup latestState f) := by
          rw [hOld]
          exact fun h => heq (Option.some.injEq _ _ ▸ h.symm ▸ rfl)
        simp [hknr, hchanged, eq_comm]
      · have hset : Obj.lookup cells₂ f = Obj.lookup cells f := by
          rw [hcells₂, Obj.lookup_set, if_neg (fun h => hfk h.symm)]
        simp [hfk, hset]

theorem checkAndUpdateLoop_events_are_cellEmit (cells : Obj (Option Val))
    (latestState : Obj Val) (cand : List String) :
    ∀ e ∈ (checkAndUpdateLoop cells latestState cand).2.1, ∃ k v, e = SEvent.cellEmit k v := by
  induction cand generalizing cells with
  | nil => simp [checkAndUpdateLoop]
  | cons key rest ih =>
    rcases hOld : Obj.lookup cells key with _ | vOld
    · simp [checkAndUpdateLoop, hOld]
    · by_cases heq : Obj.lookup latestState key = vOld
      · simpa [checkAndUpdateLoop, hOld, heq] using ih cells
      · intro e he
        simp only [checkAndUpdateLoop, hOld, heq] at he
        rcases List.mem_cons.mp (by simpa using he) with h | h
        · exact ⟨key, Obj.lookup latestState key, h⟩
        · exact ih _ e h

theorem checkAndUpdateLoop_threw_iff (cells : Obj (Option Val))
    (latestState : Obj Val) (cand : List String) :
    (checkAndUpdateLoop cells latestState cand).2.2 = true ↔
      ∃ k ∈ cand, Obj.lookup cells k = none := by
  induction cand generalizing cells with
  | nil => simp [checkAndUpdateLoop]
  | cons key rest ih =>
    rcases hOld : Obj.lookup cells key with _ | vOld
    · simp only [checkAndUpdateLoop, hOld, true_iff]
      exact ⟨key, List.mem_cons_self _ _, hOld⟩
    · by_cases heq : Obj.lookup latestState key = vOld
      · rw [show checkAndUpdateLoop cells latestState (key :: rest) =
            checkAndUpdateLoop cells latestState rest by simp [checkAndUpdateLoop, hOld, heq]]
        rw [ih cells]
        constructor
        · rintro ⟨k, hk, hnone⟩
          exact ⟨k, List.mem_cons_of_mem _ hk, hnone⟩
        · rintro ⟨k, hk, hnone⟩
          rcases List.mem_cons.mp hk with h | h
          · subst h
            rw [hOld] at hnone
            exact absurd hnone (by simp)
          · exact ⟨k, h, hnone⟩
      · set cells₂ := Obj.set cells key (Obj.lookup latestState key) with hcells₂
        rw [show (checkAndUpdateLoop cells latestState (key :: rest)).2.2 =
            (checkAndUpdateLoop cells₂ latestState rest).2.2 by
          simp [checkAndUpdateLoop, hOld, heq, hcells₂]]
        rw [ih cells₂]
        constructor
        · rintro ⟨k, hk, hnone⟩
          rw [hcells₂, Obj.lookup_set] at hnone
          by_cases hkk : key = k
          · simp [hkk] at hnone
          · rw [if_neg hkk] at hnone
            exact ⟨k, List.mem_cons_of_mem _ hk, hnone⟩
        · rintro ⟨k, hk, hnone⟩
          rcases List.mem_cons.mp hk with h | h
          · subst h
            rw [hOld] at hnone
            exact absurd hnone (by simp)
          · refine ⟨k, h, ?_⟩
            rw [hcells₂, Obj.lookup_set]
            by_cases hkk : key = k
            · subst hkk
              rw [hOld] at hnone
              exact absurd hnone (by simp)
            · rw [if_neg hkk]
              exact hnone

theorem checkAndUpdateLoop_lookup_none (cells : Obj (Option Val))
    (latestState : Obj Val) (cand : List String) (k : String)
    (hk : Obj.lookup cells k = none) :
    Obj.lookup (checkAndUpdateLoop cells latestState cand).1 k = none := by
  induction cand generalizing cells with
  | nil => simpa [checkAndUpdateLoop]
  | cons key rest ih =>
    rcases hOld : Obj.lookup cells key with _ | vOld
    · simpa [checkAndUpdateLoop, hOld]
    · by_cases heq : Obj.lookup latestState key = vOld
      · rw [show checkAndUpdateLoop cells latestState (key :: rest) =
            checkAndUpdateLoop cells latestState rest by simp [checkAndUpdateLoop, hOld, heq]]
        exact ih cells hk
      · set cells₂ := Obj.set cells key (Obj.lookup latestState key) with hcells₂
        rw [show (checkAndUpdateLoop cells latestState (key :: rest)).1 =
            (checkAndUpdateLoop cells₂ latestState rest).1 by
          simp [checkAndUpdateLoop, hOld, heq, hcells₂]]
        refine ih cells₂ ?_
        rw [hcells₂, Obj.lookup_set]
        by_cases hkk : key = k
        · subst hkk
          rw [hOld] at hk
          exact absurd hk (by simp)
        · rw [if_neg hkk]
          exact hk

end ComponentStore

namespace ComponentStore

variable {Val : Type} [DecidableEq Val] {P : Type}

/-- The spec's consistency invariant: every field cell's current value is
reference-identical to the value of that field in the current snapshot
(a cell holding `cv` for field `f` requires `Snapshot.currentValue[f]`
to be exactly `cv`, `undefined` included). -/
def consistent (st : ComponentStore Val) : Prop :=
  ∀ f cv, Obj.lookup st.state f = some cv → cv = Obj.lookup st.stateSubject f

/-- Internal invariant tied to the fixed key set `K`: the cell table has
a cell exactly for the keys of `K`, the snapshot has exactly the keys of
`K` (no duplicates), and the consistency invariant holds. -/
def StoreInv (K : List String) (st : ComponentStore Val) : Prop :=
  (∀ k, (Obj.lookup st.state k).isSome ↔ k ∈ K) ∧
    (∀ k, k ∈ Obj.keys st.stateSubject ↔ k ∈ K) ∧
    (Obj.keys st.stateSubject).Nodup ∧ consistent st

theorem lookup_construct_state (initial : Obj Val) (k : String) :
    Obj.lookup (construct initial).state k = (Obj.lookup initial k).map some := by
  show Obj.lookup (initial.map fun kv => (kv.1, some kv.2)) k = _
  induction initial with
  | nil => simp [Obj.lookup]
  | cons kv rest ih =>
    obtain ⟨k₀, v₀⟩ := kv
    by_cases h : k₀ = k <;> simp [Obj.lookup, h, ih]

theorem construct_inv (initial : Obj Val) (hnd : (Obj.keys initial).Nodup) :
    StoreInv (Obj.keys initial) (construct initial) := by
  refine ⟨fun k => ?_, fun k => Iff.rfl, hnd, fun f cv hf => ?_⟩
  · rw [lookup_construct_state, ← Obj.lookup_isSome_iff]
    rcases Obj.lookup initial k with _ | v <;> simp
  · rw [lookup_construct_state initial f] at hf
    show cv = Obj.lookup initial f
    rcases h : Obj.lookup initial f with _ | v <;> rw [h] at hf
    · exact absurd hf (by simp)
    · simpa using hf.symm

theorem publish_reconcile_full_inv (K : List String) (st : ComponentStore Val)
    (u : Obj Val) (hinv : StoreInv K st) (hnd : (Obj.keys u).Nodup)
    (hsub : ∀ k ∈ Obj.keys u, k ∈ K) (hsup : ∀ k ∈ K, k ∈ Obj.keys u) :
    StoreInv K ⟨u, (checkAndUpdateState st.state u u).1⟩ ∧
      (checkAndUpdateState st.state u u).2.2 = false := by
  have hall : ∀ k ∈ Obj.keys u, (Obj.lookup st.state k).isSome := by
    intro k hk
    exact (hinv.1 k).mpr (hsub k hk)
  obtain ⟨hthrew, hlook⟩ := checkAndUpdateLoop_no_throw st.state u (Obj.keys u) hall
  refine ⟨⟨fun k => ?_, fun k => ⟨fun h => hsub k h, fun h => hsup k h⟩, hnd, ?_⟩, hthrew⟩
  · rw [show (checkAndUpdateState st.state u u).1 =
        (checkAndUpdateLoop st.state u (Obj.keys u)).1 from rfl, hlook k]
    by_cases hk : k ∈ Obj.keys u
    · simp [hk, hsub k hk]
    · have hKn : k ∉ K := fun hK => hk (hsup k hK)
      simp [hk, hinv.1 k, hKn]
  · intro f cv hf
    rw [show (checkAndUpdateState st.state u u).1 =
        (checkAndUpdateLoop st.state u (Obj.keys u)).1 from rfl, hlook f] at hf
    by_cases hk : f ∈ Obj.keys u
    · rw [if_pos hk] at hf
      show cv = Obj.lookup u f
      simpa using hf.symm
    · rw [if_neg hk] at hf
      have : (Obj.lookup st.state f).isSome := by rw [hf]; rfl
      exact absurd (hsup f ((hinv.1 f).mp this)) hk

theorem publish_reconcile_patch_inv (K : List String) (st : ComponentStore Val)
    (p : Obj Val) (hinv : StoreInv K st) (hnd : (Obj.keys p).Nodup)
    (hsub : ∀ k ∈ Obj.keys p, k ∈ K) :
    StoreInv K ⟨Obj.merge st.stateSubject p,
        (checkAndUpdateState st.state (Obj.merge st.stateSubject p) p).1⟩ ∧
      (checkAndUpdateState st.state (Obj.merge st.stateSubject p) p).2.2 = false := by
  set merged := Obj.merge st.stateSubject p with hm
  have hall : ∀ k ∈ Obj.keys p, (Obj.lookup st.state k).isSome := by
    intro k hk
    exact (hinv.1 k).mpr (hsub k hk)
  obtain ⟨hthrew, hlook⟩ := checkAndUpdateLoop_no_throw st.state merged (Obj.keys p) hall
  refine ⟨⟨fun k => ?_, fun k => ?_, ?_, ?_⟩, hthrew⟩
  · rw [show (checkAndUpdateState st.state merged p).1 =
        (checkAndUpdateLoop st.state merged (Obj.keys p)).1 from rfl, hlook k]
    by_cases hk : k ∈ Obj.keys p
    · simp [hk, hsub k hk]
    · simp [hk, hinv.1 k]
  · rw [hm, Obj.mem_keys_merge st.stateSubject p hnd]
    constructor
    · rintro (h | h)
      · exact (hinv.2.1 k).mp h
      · exact hsub k h
    · intro h
      exact Or.inl ((hinv.2.1 k).mpr h)
  · exact Obj.keys_nodup_merge st.stateSubject p hinv.2.2.1
  · intro f cv hf
    rw [show (checkAndUpdateState st.state merged p).1 =
        (checkAndUpdateLoop st.state merged (Obj.keys p)).1 from rfl, hlook f] at hf
    by_cases hk : f ∈ Obj.keys p
    · rw [if_pos hk] at hf
      show cv = Obj.lookup merged f
      simpa using hf.symm
    · rw [if_neg hk] at hf
      have hold : cv = Obj.lookup st.stateSubject f := hinv.2.2.2 f cv hf
      show cv = Obj.lookup merged f
      rw [hm, Obj.lookup_merge st.stateSubject p hnd f,
        (Obj.lookup_eq_none_iff p f).mpr hk]
      exact hold

end ComponentStore

namespace ComponentStore

variable {Val : Type} [DecidableEq Val] {P : Type}

/-- A computed `setState`/`updater` update is well-formed for the fixed
key set `K` when it did not throw and its object has exactly the keys of
`K`, without duplicates (`setState` replaces the whole snapshot). -/
def fullUpdate (K : List String) : Except Unit (Obj Val) → Prop
  | Except.error _ => False
  | Except.ok u =>
    (Obj.keys u).Nodup ∧ (∀ k ∈ Obj.keys u, k ∈ K) ∧ ∀ k ∈ K, k ∈ Obj.keys u

/-- A computed `patchState` part is well-formed for the fixed key set `K`
when it did not throw and mentions only keys of `K`, without duplicates. -/
def partUpdate (K : List String) : Except Unit (Obj Val) → Prop
  | Except.error _ => False
  | Except.ok p => (Obj.keys p).Nodup ∧ ∀ k ∈ Obj.keys p, k ∈ K

/-- Well-formedness of one mutation call, judged at the store state where
it runs (the computed update of a functional call depends on that state). -/
def goodOp (K : List String) (st : ComponentStore Val) : MutOp Val P → Prop
  | MutOp.setL u => fullUpdate K (Except.ok u)
  | MutOp.setF f => fullUpdate K (f st.stateSubject)
  | MutOp.patchL p => partUpdate K (Except.ok p)
  | MutOp.patchF f => partUpdate K (f st.stateSubject)
  | MutOp.upd f payload => fullUpdate K (f st.stateSubject payload)

/-- Well-formedness of a whole mutation sequence, each call judged at the
state it actually runs in. -/
def goodRun (K : List String) : ComponentStore Val → List (MutOp Val P) → Prop
  | _, [] => True
  | st, op :: rest => goodOp K st op ∧ goodRun K (applyOp st op).store rest

theorem applyOp_inv (K : List String) (st : ComponentStore Val) (op : MutOp Val P)
    (hinv : StoreInv K st) (hop : goodOp K st op) :
    StoreInv K (applyOp st op).store := by
  cases op with
  | setL u =>
    obtain ⟨hnd, hsub, hsup⟩ := hop
    exact (publish_reconcile_full_inv K st u hinv hnd hsub hsup).1
  | setF f =>
    rcases hf : f st.stateSubject with e | u
    · rw [show goodOp K st (MutOp.setF (P := P) f) = fullUpdate K (f st.stateSubject) from rfl,
        hf] at hop
      exact absurd hop (fun h => h)
    · rw [show goodOp K st (MutOp.setF (P := P) f) = fullUpdate K (f st.stateSubject) from rfl,
        hf] at hop
      obtain ⟨hnd, hsub, hsup⟩ := hop
      have : (applyOp st (MutOp.setF (P := P) f)).store =
          ⟨u, (checkAndUpdateState st.state u u).1⟩ := by
        simp [applyOp, setState, hf]
      rw [this]
      exact (publish_reconcile_full_inv K st u hinv hnd hsub hsup).1
  | patchL p =>
    obtain ⟨hnd, hsub⟩ := hop
    exact (publish_reconcile_patch_inv K st p hinv hnd hsub).1
  | patchF f =>
    rcases hf : f st.stateSubject with e | p
    · rw [show goodOp K st (MutOp.patchF (P := P) f) = partUpdate K (f st.stateSubject) from rfl,
        hf] at hop
      exact absurd hop (fun h => h)
    · rw [show goodOp K st (MutOp.patchF (P := P) f) = partUpdate K (f st.stateSubject) from rfl,
        hf] at hop
      obtain ⟨hnd, hsub⟩ := hop
      have : (applyOp st (MutOp.patchF (P := P) f)).store =
          ⟨Obj.merge st.stateSubject p,
            (checkAndUpdateState st.state (Obj.merge st.stateSubject p) p).1⟩ := by
        simp [applyOp, patchState, hf]
      rw [this]
      exact (publish_reconcile_patch_inv K st p hinv hnd hsub).1
  | upd f payload =>
    rcases hf : f st.stateSubject payload with e | u
    · rw [show goodOp K st (MutOp.upd f payload) =
          fullUpdate K (f st.stateSubject payload) from rfl, hf] at hop
      exact absurd hop (fun h => h)
    · rw [show goodOp K st (MutOp.upd f payload) =
          fullUpdate K (f st.stateSubject payload) from rfl, hf] at hop
      obtain ⟨hnd, hsub, hsup⟩ := hop
      have : (applyOp st (MutOp.upd f payload)).store =
          ⟨u, (checkAndUpdateState st.state u u).1⟩ := by
        simp [applyOp, updater, hf]
      rw [this]
      exact (publish_reconcile_full_inv K st u hinv hnd hsub hsup).1

theorem runTrace_inv (K : List String) (st₀ : ComponentStore Val)
    (ops : List (MutOp Val P)) (hinv : StoreInv K st₀) (hgood : goodRun K st₀ ops) :
    ∀ st ∈ runTrace st₀ ops, StoreInv K st := by
  induction ops generalizing st₀ with
  | nil => simp [runTrace]
  | cons op rest ih =>
    obtain ⟨hop, hrest⟩ := hgood
    intro st hst
    rcases List.mem_cons.mp (by simpa [runTrace] using hst) with h | h
    · subst h
      exact applyOp_inv K st₀ op hinv hop
    · exact ih _ (applyOp_inv K st₀ op hinv hop) hrest st h

end ComponentStore

/-- Claim C1, as frozen, is refuted at a concrete input: start from the
initial state `\x7ba: 0, b: 0\x7d` and run the single mutation
`setState(\x7ba: 1\x7d)`.  Its update mentions only the field `a`, which is
present in the initial snapshot, and the mutation completes without
throwing — yet afterwards the field cell for `b` still holds `0` while
the current snapshot no longer has a field `b` (`undefined`), so the
cell value is not reference-equal to the snapshot's field value. -/
theorem claim1_consistency_counterexample :
    (ComponentStore.applyOp (ComponentStore.construct ([("a", 0), ("b", 0)] : Obj ℕ))
        (MutOp.setL (P := Unit) [("a", 1)])).threw = false ∧
    (∀ k ∈ Obj.keys ([("a", 1)] : Obj ℕ), k ∈ Obj.keys ([("a", 0), ("b", 0)] : Obj ℕ)) ∧
    ¬ ComponentStore.consistent
        (ComponentStore.applyOp (ComponentStore.construct ([("a", 0), ("b", 0)] : Obj ℕ))
          (MutOp.setL (P := Unit) [("a", 1)])).store := by
  refine ⟨by decide, by decide, fun h => ?_⟩
  have hb := h "b" (some 0) (by decide)
  exact absurd hb (by decide)

/-- Claim C1 (amended): for every initial state with distinct field names
and every sequence of mutations (`setState`, `patchState`,
updater-produced callables) whose computed `setState`/`updater` updates
contain exactly the fields of the initial snapshot and whose `patchState`
parts mention only fields of the initial snapshot, after each mutation
completes, every field cell holds a value reference-equal to that field
of the current snapshot held by the snapshot stream. -/
theorem claim1_consistency_amended {Val : Type} [DecidableEq Val] {P : Type}
    (initial : Obj Val) (hnd : (Obj.keys initial).Nodup)
    (ops : List (MutOp Val P))
    (hgood : ComponentStore.goodRun (Obj.keys initial)
      (ComponentStore.construct initial) ops) :
    ∀ st ∈ ComponentStore.runTrace (ComponentStore.construct initial) ops,
      ComponentStore.consistent st :=
  fun st hst =>
    (ComponentStore.runTrace_inv (Obj.keys initial) (ComponentStore.construct initial)
      ops (ComponentStore.construct_inv initial hnd) hgood st hst).2.2.2

/-- A concrete initial state for exercising the amended claim C1. -/
def c1Init : Obj ℕ := [("a", 0), ("b", 1)]

/-- A concrete mutation sequence (a full `setState`, a `patchState`, an
updater call) for exercising the amended claim C1. -/
def c1Ops : List (MutOp ℕ ℕ) :=
  [MutOp.setL [("b", 2), ("a", 3)],
   MutOp.patchL [("a", 4)],
   MutOp.upd (fun _ payload => Except.ok [("a", payload), ("b", 5)]) 9]

theorem claim1_consistency_amended_witness :
    (Obj.keys c1Init).Nodup ∧
      ComponentStore.goodRun (Obj.keys c1Init) (ComponentStore.construct c1Init) c1Ops ∧
      ∀ st ∈ ComponentStore.runTrace (ComponentStore.construct c1Init) c1Ops,
        ComponentStore.consistent st := by
  have hgood : ComponentStore.goodRun (Obj.keys c1Init)
      (ComponentStore.construct c1Init) c1Ops :=
    ⟨⟨by decide, by decide, by decide⟩,
      ⟨by decide, by decide⟩,
      ⟨by decide, by decide, by decide⟩, trivial⟩
  exact ⟨by decide, hgood, claim1_consistency_amended c1Init (by decide) c1Ops hgood⟩

/-- Claim C2: during the reconciliation of a single mutation — running
`checkAndUpdateState` with candidate object `cand` and the now-current
snapshot `latestState` — a field `f` of the candidate set (whose field
cell currently holds `vOld`) emits some value if and only if the new
snapshot's value for `f` is not reference-identical to `vOld`, and any
value it emits is exactly the new snapshot's value for `f`. -/
theorem claim2_change_only_emission {Val : Type} [DecidableEq Val]
    (cells : Obj (Option Val)) (latestState cand : Obj Val)
    (hnd : (Obj.keys cand).Nodup)
    (hall : ∀ k ∈ Obj.keys cand, (Obj.lookup cells k).isSome)
    (f : String) (vOld : Option Val) (hf : f ∈ Obj.keys cand)
    (hcell : Obj.lookup cells f = some vOld) :
    ((∃ v, SEvent.cellEmit f v ∈
        (ComponentStore.checkAndUpdateState cells latestState cand).2.1) ↔
      Obj.lookup latestState f ≠ vOld) ∧
    ∀ v, SEvent.cellEmit f v ∈
        (ComponentStore.checkAndUpdateState cells latestState cand).2.1 →
      v = Obj.lookup latestState f := by
  have hiff := ComponentStore.checkAndUpdateLoop_mem_events cells latestState
    (Obj.keys cand) hnd hall f
  refine ⟨⟨?_, ?_⟩, ?_⟩
  · rintro ⟨v, hv⟩
    obtain ⟨-, -, hne⟩ := (hiff v).mp hv
    intro heq
    exact hne (by rw [hcell, heq])
  · intro hne
    refine ⟨Obj.lookup latestState f, (hiff _).mpr ⟨hf, rfl, ?_⟩⟩
    rw [hcell]
    intro h
    exact hne (Option.some_injective _ h).symm
  · intro v hv
    exact ((hiff v).mp hv).2.1

theorem claim2_change_only_emission_witness :
    (∃ v, SEvent.cellEmit "a" v ∈
        (ComponentStore.checkAndUpdateState ([("a", some 0), ("b", some 5)] : Obj (Option ℕ))
          [("a", 1), ("b", 5)] [("a", 1), ("b", 5)]).2.1) ∧
    ¬ ∃ v, SEvent.cellEmit "b" v ∈
        (ComponentStore.checkAndUpdateState ([("a", some 0), ("b", some 5)] : Obj (Option ℕ))
          [("a", 1), ("b", 5)] [("a", 1), ("b", 5)]).2.1 := by
  refine ⟨?_, fun hex => ?_⟩
  · exact (claim2_change_only_emission [("a", some 0), ("b", some 5)] [("a", 1), ("b", 5)]
      [("a", 1), ("b", 5)] (by decide) (by decide) "a" (some 0) (by decide)
      (by decide)).1.mpr (by decide)
  · exact absurd ((claim2_change_only_emission [("a", some 0), ("b", some 5)]
      [("a", 1), ("b", 5)] [("a", 1), ("b", 5)] (by decide) (by decide) "b" (some 5)
      (by decide) (by decide)).1.mp hex) (by decide)

/-- Claim C3: `patchState` with a literal patch `p` (distinct keys, all
with field cells) publishes the merged snapshot, in which every field
not named in the patch keeps its previous value; no field cell outside
the patch emits, and every patched field whose merged value differs from
its cell's current value emits that merged value. -/
theorem claim3_patch_scoping {Val : Type} [DecidableEq Val]
    (st : ComponentStore Val) (p : Obj Val)
    (hnd : (Obj.keys p).Nodup)
    (hall : ∀ k ∈ Obj.keys p, (Obj.lookup st.state k).isSome) :
    (ComponentStore.patchState st (Sum.inl p)).store.stateSubject =
        Obj.merge st.stateSubject p ∧
    (∀ k, k ∉ Obj.keys p →
        Obj.lookup (Obj.merge st.stateSubject p) k = Obj.lookup st.stateSubject k) ∧
    (∀ k v, k ∉ Obj.keys p →
        SEvent.cellEmit k v ∉ (ComponentStore.patchState st (Sum.inl p)).events) ∧
    (∀ k vOld, k ∈ Obj.keys p → Obj.lookup st.state k = some vOld →
        Obj.lookup (Obj.merge st.stateSubject p) k ≠ vOld →
        SEvent.cellEmit k (Obj.lookup (Obj.merge st.stateSubject p) k) ∈
          (ComponentStore.patchState st (Sum.inl p)).events) := by
  set merged := Obj.merge st.stateSubject p with hm
  have hiff := fun k => ComponentStore.checkAndUpdateLoop_mem_events st.state merged
    (Obj.keys p) hnd hall k
  have hevents : (ComponentStore.patchState st (Sum.inl p)).events =
      SEvent.snapEmit merged ::
        (ComponentStore.checkAndUpdateLoop st.state merged (Obj.keys p)).2.1 := rfl
  refine ⟨rfl, ?_, ?_, ?_⟩
  · intro k hk
    rw [hm, Obj.lookup_merge st.stateSubject p hnd k,
      (Obj.lookup_eq_none_iff p k).mpr hk]
  · intro k v hk hmem
    rw [hevents] at hmem
    rcases List.mem_cons.mp hmem with h | h
    · exact SEvent.noConfusion h
    · exact hk ((hiff k v).mp h).1
  · intro k vOld hk hcell hne
    rw [hevents]
    refine List.mem_cons_of_mem _ ((hiff k _).mpr ⟨hk, rfl, ?_⟩)
    rw [hcell]
    intro h
    exact hne (Option.some_injective _ h).symm

theorem claim3_patch_scoping_witness :
    SEvent.cellEmit "a" (some 1) ∈
      (ComponentStore.patchState (ComponentStore.construct ([("a", 0), ("b", 0)] : Obj ℕ))
        (Sum.inl [("a", 1)])).events ∧
    (∀ v, SEvent.cellEmit "b" v ∉
      (ComponentStore.patchState (ComponentStore.construct ([("a", 0), ("b", 0)] : Obj ℕ))
        (Sum.inl [("a", 1)])).events) ∧
    (ComponentStore.patchState (ComponentStore.construct ([("a", 0), ("b", 0)] : Obj ℕ))
        (Sum.inl [("a", 1)])).store.stateSubject = [("a", 1), ("b", 0)] := by
  have h := claim3_patch_scoping (ComponentStore.construct ([("a", 0), ("b", 0)] : Obj ℕ))
    [("a", 1)] (by decide) (by decide)
  refine ⟨?_, fun v => h.2.2.1 "b" v (by decide), by decide⟩
  have ha := h.2.2.2 "a" (some 0) (by decide) (by decide) (by decide)
  have he : Obj.lookup (Obj.merge (ComponentStore.construct
      ([("a", 0), ("b", 0)] : Obj ℕ)).stateSubject [("a", 1)]) "a" = some 1 := by decide
  rw [he] at ha
  exact ha

/-- Claim C4: for every transition function and payload, invoking the
callable returned by `updater` with that payload produces exactly the
same outcome — same new store state, same emissions in the same order,
same throw status — as calling `setState` with the function applied to
the payload, in the same store state. -/
theorem claim4_updater_setState_equiv {Val : Type} [DecidableEq Val] {P : Type}
    (fn : Obj Val → P → Except Unit (Obj Val)) (payload : P) (st : ComponentStore Val) :
    ComponentStore.updater fn payload st =
      ComponentStore.setState st (Sum.inr (fun s => fn s payload)) := rfl

/-- Claim C5: calling any of the three mutation primitives with a
transition function that throws on the current snapshot leaves the
container entirely unchanged: the exception propagates (`threw = true`),
no event is emitted on the snapshot stream or any field cell, and the
store state is exactly what it was before the call. -/
theorem claim5_transition_failure_atomicity {Val : Type} [DecidableEq Val] {P : Type}
    (st : ComponentStore Val) (setFn patchFn : Obj Val → Except Unit (Obj Val))
    (updFn : Obj Val → P → Except Unit (Obj Val)) (payload : P)
    (hset : setFn st.stateSubject = Except.error ())
    (hpatch : patchFn st.stateSubject = Except.error ())
    (hupd : updFn st.stateSubject payload = Except.error ()) :
    ComponentStore.setState st (Sum.inr setFn) = ⟨st, [], true⟩ ∧
    ComponentStore.patchState st (Sum.inr patchFn) = ⟨st, [], true⟩ ∧
    ComponentStore.updater updFn payload st = ⟨st, [], true⟩ := by
  refine ⟨?_, ?_, ?_⟩
  · simp [ComponentStore.setState, hset]
  · simp [ComponentStore.patchState, hpatch]
  · simp [ComponentStore.updater, hupd]

theorem claim5_transition_failure_atomicity_witness :
    ComponentStore.setState (ComponentStore.construct ([("a", 0)] : Obj ℕ))
        (Sum.inr fun _ => Except.error ()) =
      ⟨ComponentStore.construct [("a", 0)], [], true⟩ ∧
    ComponentStore.patchState (ComponentStore.construct ([("a", 0)] : Obj ℕ))
        (Sum.inr fun _ => Except.error ()) =
      ⟨ComponentStore.construct [("a", 0)], [], true⟩ ∧
    ComponentStore.updater (fun _ (_ : Unit) => Except.error ()) ()
        (ComponentStore.construct ([("a", 0)] : Obj ℕ)) =
      ⟨ComponentStore.construct [("a", 0)], [], true⟩ :=
  claim5_transition_failure_atomicity (ComponentStore.construct [("a", 0)])
    (fun _ => Except.error ()) (fun _ => Except.error ())
    (fun _ (_ : Unit) => Except.error ()) () rfl rfl rfl

/-- The emission-ordering property of one mutation's event list: either
nothing was emitted (the transition function threw before a snapshot
existed), or the full-state snapshot emission comes strictly first and
everything after it is a field cell emission. -/
def snapshotFirst {Val : Type} : List (SEvent Val) → Prop
  | [] => True
  | SEvent.snapEmit _ :: tail => ∀ e ∈ tail, ∃ k v, e = SEvent.cellEmit k v
  | SEvent.cellEmit _ _ :: _ => False

/-- Claim C6: for every single mutation — `setState`, `patchState`, or an
updater-produced callable, with any argument — the snapshot stream emits
the new snapshot strictly before any field cell emission of that
mutation: the event list is empty or starts with the one snapshot
emission, followed only by field cell emissions. -/
theorem claim6_emission_ordering {Val : Type} [DecidableEq Val] {P : Type}
    (st : ComponentStore Val) (arg₁ arg₂ : Obj Val ⊕ (Obj Val → Except Unit (Obj Val)))
    (fn : Obj Val → P → Except Unit (Obj Val)) (payload : P) :
    snapshotFirst (ComponentStore.setState st arg₁).events ∧
    snapshotFirst (ComponentStore.patchState st arg₂).events ∧
    snapshotFirst (ComponentStore.updater fn payload st).events := by
  refine ⟨?_, ?_, ?_⟩
  · rcases arg₁ with u | f
    · exact ComponentStore.checkAndUpdateLoop_events_are_cellEmit st.state u (Obj.keys u)
    · rcases hf : f st.stateSubject with e | u
      · simp [ComponentStore.setState, hf, snapshotFirst]
      · have : ComponentStore.setState st (Sum.inr f) =
            ⟨⟨u, (ComponentStore.checkAndUpdateState st.state u u).1⟩,
              SEvent.snapEmit u :: (ComponentStore.checkAndUpdateState st.state u u).2.1,
              (ComponentStore.checkAndUpdateState st.state u u).2.2⟩ := by
          simp [ComponentStore.setState, hf]
        rw [this]
        exact ComponentStore.checkAndUpdateLoop_events_are_cellEmit st.state u (Obj.keys u)
  · rcases arg₂ with p | f
    · exact ComponentStore.checkAndUpdateLoop_events_are_cellEmit st.state
        (Obj.merge st.stateSubject p) (Obj.keys p)
    · rcases hf : f st.stateSubject with e | p
      · simp [ComponentStore.patchState, hf, snapshotFirst]
      · have : ComponentStore.patchState st (Sum.inr f) =
            ⟨⟨Obj.merge st.stateSubject p,
                (ComponentStore.checkAndUpdateState st.state
                  (Obj.merge st.stateSubject p) p).1⟩,
              SEvent.snapEmit (Obj.merge st.stateSubject p) ::
                (ComponentStore.checkAndUpdateState st.state
                  (Obj.merge st.stateSubject p) p).2.1,
              (ComponentStore.checkAndUpdateState st.state
                (Obj.merge st.stateSubject p) p).2.2⟩ := by
          simp [ComponentStore.patchState, hf]
        rw [this]
        exact ComponentStore.checkAndUpdateLoop_events_are_cellEmit st.state
          (Obj.merge st.stateSubject p) (Obj.keys p)
  · rcases hf : fn st.stateSubject payload with e | u
    · simp [ComponentStore.updater, hf, snapshotFirst]
    · have : ComponentStore.updater fn payload st =
          ⟨⟨u, (ComponentStore.checkAndUpdateState st.state u u).1⟩,
            SEvent.snapEmit u :: (ComponentStore.checkAndUpdateState st.state u u).2.1,
            (ComponentStore.checkAndUpdateState st.state u u).2.2⟩ := by
        simp [ComponentStore.updater, hf]
      rw [this]
      exact ComponentStore.checkAndUpdateLoop_events_are_cellEmit st.state u (Obj.keys u)

/-- A JavaScript literal value, with enough structure to decide JS
truthiness: numbers, strings, booleans, null, and (always truthy) object
references identified by an id. -/
inductive JSLit where
  | num (n : Int)
  | str (s : String)
  | bool (b : Bool)
  | nullV
  | obj (id : Nat)
deriving DecidableEq

/-- JS truthiness of a literal value. -/
def JSLit.truthy : JSLit → Bool
  | JSLit.num n => decide (n ≠ 0)
  | JSLit.str s => decide (s ≠ "")
  | JSLit.bool b => b
  | JSLit.nullV => false
  | JSLit.obj _ => true

/-- The input stream fed to the effect by the callable returned by
`effect(effectFn)`, modelled as the finite list of values it emits.
`staticValueOrSource` is omitted (`none`), a literal value, or a stream
(itself a list of emissions).  Mirrors the dispatch in the source:
`instanceof Observable` first, then the truthiness test
`else if (staticValueOrSource)` selecting `of(...)`, else `EMPTY`. -/
def ComponentStore.effectSource (staticValueOrSource : Option (JSLit ⊕ List JSLit)) :
    List JSLit :=
  match staticValueOrSource with
  | some (Sum.inr source) => source
  | some (Sum.inl v) => if v.truthy then [v] else []
  | none => []

/-- Claim C7, as frozen, is refuted at a concrete input: invoking an
effect's returned callable with the literal value `0` feeds the effect a
stream that never emits — not a stream that emits `0` exactly once —
because the dispatch tests JS truthiness of the argument rather than its
presence, and `0` is falsy.  (Likewise for `""` and `false`.) -/
theorem claim7_effect_input_counterexample :
    ComponentStore.effectSource (some (Sum.inl (JSLit.num 0))) = [] ∧
    ComponentStore.effectSource (some (Sum.inl (JSLit.num 0))) ≠ [JSLit.num 0] := by
  decide

/-- Claim C7 (amended): invoking the returned callable with a stream
feeds that stream directly; with the argument omitted, a stream that
never emits; with a truthy literal value, a stream that emits that value
exactly once immediately; and with a falsy literal value (such as `0`,
`""`, or `false`), again a stream that never emits. -/
theorem claim7_effect_input_amended (v : JSLit) (s : List JSLit) :
    ComponentStore.effectSource (some (Sum.inr s)) = s ∧
    ComponentStore.effectSource none = [] ∧
    (JSLit.truthy v = true → ComponentStore.effectSource (some (Sum.inl v)) = [v]) ∧
    (JSLit.truthy v = false → ComponentStore.effectSource (some (Sum.inl v)) = []) := by
  refine ⟨rfl, rfl, fun h => ?_, fun h => ?_⟩ <;> simp [ComponentStore.effectSource, h]

theorem claim7_effect_input_amended_witness :
    ComponentStore.effectSource (some (Sum.inl (JSLit.num 5))) = [JSLit.num 5] ∧
    ComponentStore.effectSource (some (Sum.inl (JSLit.bool false))) = [] :=
  ⟨(claim7_effect_input_amended (JSLit.num 5) []).2.2.1 (by decide),
   (claim7_effect_input_amended (JSLit.bool false) []).2.2.2 (by decide)⟩

/-- The observable outcome claim C10 describes for one mutation: the
call threw, yet the snapshot stream was already updated to `snap` (its
emission is the first event, not rolled back), while the field cell
table has no cell for `k` even though `snap` has the field `k` — the
consistency invariant is broken for that key. -/
def nonAtomicFailure {Val : Type} (out : MutOutcome (ComponentStore Val) Val)
    (snap : Obj Val) (k : String) : Prop :=
  out.threw = true ∧ out.store.stateSubject = snap ∧
    out.events.head? = some (SEvent.snapEmit snap) ∧
    Obj.lookup out.store.state k = none ∧ (Obj.lookup snap k).isSome

namespace ComponentStore

variable {Val : Type} [DecidableEq Val]

theorem checkAndUpdateLoop_unknown_key (cells : Obj (Option Val)) (latestState : Obj Val)
    (cand : List String) (k : String) (hk : k ∈ cand)
    (hnone : Obj.lookup cells k = none) :
    (checkAndUpdateLoop cells latestState cand).2.2 = true ∧
      Obj.lookup (checkAndUpdateLoop cells latestState cand).1 k = none :=
  ⟨(checkAndUpdateLoop_threw_iff cells latestState cand).mpr ⟨k, hk, hnone⟩,
    checkAndUpdateLoop_lookup_none cells latestState cand k hnone⟩

end ComponentStore

/-- Claim C10: every mutation (literal `setState`, literal `patchState`,
or an updater-produced callable) whose computed update object contains a
field name absent from the initial snapshot — hence absent from the
frozen field cell table — first emits the new snapshot on the snapshot
stream and then throws while dereferencing the missing field cell: the
call reports a throw, the publish is not rolled back, and the
consistency invariant is broken for that key. -/
theorem claim10_unknown_field_non_atomic {Val : Type} [DecidableEq Val] {P : Type}
    (initial u p : Obj Val) (k kp : String)
    (fn : Obj Val → P → Except Unit (Obj Val)) (payload : P)
    (hk : k ∈ Obj.keys u) (hout : Obj.lookup initial k = none)
    (hkp : kp ∈ Obj.keys p) (houtp : Obj.lookup initial kp = none)
    (hndp : (Obj.keys p).Nodup)
    (hfn : fn initial payload = Except.ok u) :
    nonAtomicFailure (ComponentStore.setState (ComponentStore.construct initial)
      (Sum.inl u)) u k ∧
    nonAtomicFailure (ComponentStore.patchState (ComponentStore.construct initial)
      (Sum.inl p)) (Obj.merge initial p) kp ∧
    nonAtomicFailure (ComponentStore.updater fn payload
      (ComponentStore.construct initial)) u k := by
  have hcells : ∀ k', Obj.lookup initial k' = none →
      Obj.lookup (ComponentStore.construct initial).state k' = none := by
    intro k' h
    rw [ComponentStore.lookup_construct_state, h]
    rfl
  refine ⟨?_, ?_, ?_⟩
  · obtain ⟨hthr, hlook⟩ := ComponentStore.checkAndUpdateLoop_unknown_key
      (ComponentStore.construct initial).state u (Obj.keys u) k hk (hcells k hout)
    exact ⟨hthr, rfl, rfl, hlook, (Obj.lookup_isSome_iff u k).mpr hk⟩
  · obtain ⟨hthr, hlook⟩ := ComponentStore.checkAndUpdateLoop_unknown_key
      (ComponentStore.construct initial).state (Obj.merge initial p) (Obj.keys p)
      kp hkp (hcells kp houtp)
    refine ⟨hthr, rfl, rfl, hlook, ?_⟩
    rw [Obj.lookup_merge initial p hndp kp]
    obtain ⟨v, hv⟩ := Option.isSome_iff_exists.mp ((Obj.lookup_isSome_iff p kp).mpr hkp)
    rw [hv]
    rfl
  · obtain ⟨hthr, hlook⟩ := ComponentStore.checkAndUpdateLoop_unknown_key
      (ComponentStore.construct initial).state u (Obj.keys u) k hk (hcells k hout)
    have hout' : ComponentStore.updater fn payload (ComponentStore.construct initial) =
        ⟨⟨u, (ComponentStore.checkAndUpdateState
            (ComponentStore.construct initial).state u u).1⟩,
          SEvent.snapEmit u :: (ComponentStore.checkAndUpdateState
            (ComponentStore.construct initial).state u u).2.1,
          (ComponentStore.checkAndUpdateState
            (ComponentStore.construct initial).state u u).2.2⟩ := by
      simp only [ComponentStore.updater]
      rw [show (ComponentStore.construct initial).stateSubject = initial from rfl, hfn]
    rw [hout']
    exact ⟨hthr, rfl, rfl, hlook, (Obj.lookup_isSome_iff u k).mpr hk⟩

theorem claim10_unknown_field_non_atomic_witness :
    nonAtomicFailure (ComponentStore.setState
        (ComponentStore.construct ([("a", 0)] : Obj ℕ)) (Sum.inl [("a", 1), ("c", 2)]))
      [("a", 1), ("c", 2)] "c" ∧
    nonAtomicFailure (ComponentStore.patchState
        (ComponentStore.construct ([("a", 0)] : Obj ℕ)) (Sum.inl [("c", 3)]))
      (Obj.merge [("a", 0)] [("c", 3)]) "c" ∧
    nonAtomicFailure (ComponentStore.updater
        (fun _ (_ : Unit) => Except.ok ([("a", 1), ("c", 2)] : Obj ℕ)) ()
        (ComponentStore.construct [("a", 0)]))
      [("a", 1), ("c", 2)] "c" :=
  claim10_unknown_field_non_atomic [("a", 0)] [("a", 1), ("c", 2)] [("c", 3)] "c" "c"
    (fun _ (_ : Unit) => Except.ok [("a", 1), ("c", 2)]) ()
    (by decide) (by decide) (by decide) (by decide) (by decide) rfl

theorem loop_equiv {Val : Type} [DecidableEq Val] (cells : Obj (Option Val))
    (latestState : Obj Val) (cand : List String) :
    CustomStore.checkAndUpdateLoop cells latestState cand =
      ComponentStore.checkAndUpdateLoop cells latestState cand := by
  induction cand generalizing cells with
  | nil => rfl
  | cons key rest ih =>
    rcases h : Obj.lookup cells key with _ | vOld
    · simp [CustomStore.checkAndUpdateLoop, ComponentStore.checkAndUpdateLoop, h]
    · by_cases heq : Obj.lookup latestState key = vOld <;>
        simp [CustomStore.checkAndUpdateLoop, ComponentStore.checkAndUpdateLoop, h, heq, ih]

theorem applyOp_equiv {Val : Type} [DecidableEq Val] {P : Type}
    (st : CustomStore Val) (op : MutOp Val P) :
    CustomStore.toComponentStore (CustomStore.applyOp st op).store =
        (ComponentStore.applyOp (CustomStore.toComponentStore st) op).store ∧
      (CustomStore.applyOp st op).events =
        (ComponentStore.applyOp (CustomStore.toComponentStore st) op).events ∧
      (CustomStore.applyOp st op).threw =
        (ComponentStore.applyOp (CustomStore.toComponentStore st) op).threw := by
  cases op with
  | setL u =>
    refine ⟨?_, ?_, ?_⟩ <;>
      simp [CustomStore.applyOp, ComponentStore.applyOp, CustomStore.setState,
        ComponentStore.setState, CustomStore.checkAndUpdateState,
        ComponentStore.checkAndUpdateState, loop_equiv, CustomStore.toComponentStore]
  | setF f =>
    rcases hf : f st.stateSubject with e | u <;>
      refine ⟨?_, ?_, ?_⟩ <;>
        simp [CustomStore.applyOp, ComponentStore.applyOp, CustomStore.setState,
          ComponentStore.setState, CustomStore.checkAndUpdateState,
          ComponentStore.checkAndUpdateState, loop_equiv, CustomStore.toComponentStore, hf]
  | patchL p =>
    refine ⟨?_, ?_, ?_⟩ <;>
      simp [CustomStore.applyOp, ComponentStore.applyOp, CustomStore.patchState,
        ComponentStore.patchState, CustomStore.checkAndUpdateState,
        ComponentStore.checkAndUpdateState, loop_equiv, CustomStore.toComponentStore]
  | patchF f =>
    rcases hf : f st.stateSubject with e | p <;>
      refine ⟨?_, ?_, ?_⟩ <;>
        simp [CustomStore.applyOp, ComponentStore.applyOp, CustomStore.patchState,
          ComponentStore.patchState, CustomStore.checkAndUpdateState,
          ComponentStore.checkAndUpdateState, loop_equiv, CustomStore.toComponentStore, hf]
  | upd f payload =>
    rcases hf : f st.stateSubject payload with e | u <;>
      refine ⟨?_, ?_, ?_⟩ <;>
        simp [CustomStore.applyOp, ComponentStore.applyOp, CustomStore.updater,
          ComponentStore.updater, CustomStore.checkAndUpdateState,
          ComponentStore.checkAndUpdateState, loop_equiv, CustomStore.toComponentStore, hf]

theorem run_equiv {Val : Type} [DecidableEq Val] {P : Type}
    (st : CustomStore Val) (ops : List (MutOp Val P)) :
    CustomStore.runEvents st ops =
        ComponentStore.runEvents (CustomStore.toComponentStore st) ops ∧
      CustomStore.toComponentStore (CustomStore.runFinal st ops) =
        ComponentStore.runFinal (CustomStore.toComponentStore st) ops := by
  induction ops generalizing st with
  | nil => exact ⟨rfl, rfl⟩
  | cons op rest ih =>
    obtain ⟨hst, hev, -⟩ := applyOp_equiv st op
    constructor
    · show (CustomStore.applyOp st op).events ++
          CustomStore.runEvents (CustomStore.applyOp st op).store rest =
        (ComponentStore.applyOp (CustomStore.toComponentStore st) op).events ++
          ComponentStore.runEvents
            (ComponentStore.applyOp (CustomStore.toComponentStore st) op).store rest
      rw [hev, (ih (CustomStore.applyOp st op).store).1, hst]
    · show CustomStore.toComponentStore
          (CustomStore.runFinal (CustomStore.applyOp st op).store rest) =
        ComponentStore.runFinal
          (ComponentStore.applyOp (CustomStore.toComponentStore st) op).store rest
      rw [(ih (CustomStore.applyOp st op).store).2, hst]

/-- Claim C9: the duplicated `CustomStore` implementation and the
`ComponentStore` implementation agree on every operation they share:
construction from the same initial state yields the same store state
(under the field-for-field correspondence); every sequence of mutations
produces identical snapshot-stream and field-cell emissions and
identical final state; shape-1 `select` returns the same result; and
teardown completes the same streams in the same order. -/
theorem claim9_two_store_equivalence {Val : Type} [DecidableEq Val] {P : Type} {α : Type}
    (initial : Obj Val) (ops : List (MutOp Val P)) (st : CustomStore Val)
    (selectFn : Obj (Option Val) → α) :
    CustomStore.toComponentStore (CustomStore.construct initial) =
        ComponentStore.construct initial ∧
    CustomStore.runEvents (CustomStore.construct initial) ops =
        ComponentStore.runEvents (ComponentStore.construct initial) ops ∧
    CustomStore.toComponentStore (CustomStore.runFinal (CustomStore.construct initial) ops) =
        ComponentStore.runFinal (ComponentStore.construct initial) ops ∧
    CustomStore.select st selectFn =
        ComponentStore.select (CustomStore.toComponentStore st) selectFn ∧
    CustomStore.ngOnDestroy st =
        ComponentStore.ngOnDestroy (CustomStore.toComponentStore st) := by
  obtain ⟨hev, hfin⟩ := run_equiv (CustomStore.construct initial) ops
  exact ⟨rfl, hev, hfin, rfl, rfl⟩

/-- One step of a latest-value join over positional input streams:
record that stream `e.1` emitted the value `e.2`. -/
def clStep {Val : Type} (latest : List (Option Val)) (e : ℕ × Val) : List (Option Val) :=
  latest.set e.1 (some e.2)

/-- `combineLatest` over positional input streams, driven by a finite
interleaved schedule of emissions `(stream index, value)`: after each
input emission, once every input has emitted at least once, the join
emits the list of the current latest values of all inputs. -/
def combineLatestRun {Val : Type} (latest : List (Option Val)) :
    List (ℕ × Val) → List (List Val)
  | [] => []
  | e :: rest =>
    let latest' := clStep latest e
    if latest'.all Option.isSome then
      latest'.reduceOption :: combineLatestRun latest' rest
    else
      combineLatestRun latest' rest

/-- The record assembly of shape-3 `select`: the emitted array of values
is reduced into a record by pairing each value with the declared key of
the same index and writing it with spread-accumulation
(`values.reduce(..., \x7b\x7d)`). -/
def buildViewModel {Val : Type} (keys : List String) (values : List Val) : Obj Val :=
  (List.zip keys values).foldl (fun vm kv => Obj.set vm kv.1 kv.2) []

/-- Shape 3 of `select` (named record of streams), with the record's
streams numbered positionally in declaration order: `keys` lists the
record's keys in declared (`for..in`) order, stream `i` is the stream
bound to `keys[i]`, and `sched` is the interleaved schedule of input
emissions.  Result: the view-model records emitted in order
(`combineLatest(selectors).pipe(map(...))`). -/
def ComponentStore.selectNamed {Val : Type} (keys : List String)
    (sched : List (ℕ × Val)) : List (Obj Val) :=
  (combineLatestRun (List.replicate keys.length none) sched).map (buildViewModel keys)

/-- The latest value of each of `m` input streams after a schedule. -/
def latestValues {Val : Type} (m : ℕ) (sched : List (ℕ × Val)) : List (Option Val) :=
  sched.foldl clStep (List.replicate m none)

/-- The spec's description of selector shape 3, written from its words:
once every input stream has emitted at least once, each input emission
produces a record with exactly the declared keys in declared order, each
value being the latest value of the corresponding input stream. -/
def specSelectNamed {Val : Type} (keys : List String) (sched : List (ℕ × Val)) :
    List (Obj Val) :=
  (List.range sched.length).filterMap (fun j =>
    let latest := latestValues keys.length (sched.take (j + 1))
    if latest.all Option.isSome then
      some (List.zip keys latest.reduceOption)
    else none)

theorem keys_zip_sublist {Val : Type} (ks : List String) (vs : List Val) :
    (Obj.keys (List.zip ks vs)).Sublist ks := by
  induction ks generalizing vs with
  | nil => simp [Obj.keys]
  | cons k rest ih =>
    cases vs with
    | nil => simp [Obj.keys]
    | cons v vrest =>
      simpa [Obj.keys] using (ih vrest).cons₂ k

theorem foldl_set_append {Val : Type} (l : Obj Val) (acc : Obj Val)
    (hdisj : ∀ k ∈ Obj.keys l, k ∉ Obj.keys acc) (hnd : (Obj.keys l).Nodup) :
    l.foldl (fun vm kv => Obj.set vm kv.1 kv.2) acc = acc ++ l := by
  induction l generalizing acc with
  | nil => simp
  | cons kv rest ih =>
    obtain ⟨k, v⟩ := kv
    have hk : k ∉ Obj.keys acc := hdisj k (by simp [Obj.keys_cons])
    have hknr : k ∉ Obj.keys rest := by
      simpa [Obj.keys_cons] using (List.nodup_cons.mp (by simpa [Obj.keys_cons] using hnd)).1
    rw [List.foldl_cons]
    show List.foldl (fun vm kv => Obj.set vm kv.1 kv.2) (Obj.set acc k v) rest = _
    rw [Obj.set_of_not_mem acc k v hk]
    rw [ih (acc ++ [(k, v)]) ?_ ?_]
    · simp
    · intro k' hk'
      have h1 : k' ∉ Obj.keys acc := hdisj k' (by simp [Obj.keys_cons, hk'])
      have h2 : k' ≠ k := fun h => hknr (h ▸ hk')
      intro hmem
      have hkeys : Obj.keys (acc ++ [(k, v)]) = Obj.keys acc ++ [k] := by
        simp [Obj.keys]
      rw [hkeys] at hmem
      rcases List.mem_append.mp hmem with h | h
      · exact h1 h
      · exact h2 (by simpa using h)
    · exact (List.nodup_cons.mp (by simpa [Obj.keys_cons] using hnd)).2

theorem buildViewModel_eq_zip {Val : Type} (keys : List String) (values : List Val)
    (hnd : keys.Nodup) : buildViewModel keys values = List.zip keys values := by
  have hsub := keys_zip_sublist keys values
  have hnd' : (Obj.keys (List.zip keys values)).Nodup := hnd.sublist hsub
  simpa using foldl_set_append (List.zip keys values) [] (by simp [Obj.keys]) hnd'

theorem combineLatestRun_spec {Val : Type} (sched : List (ℕ × Val))
    (latest : List (Option Val)) :
    combineLatestRun latest sched =
      (List.range sched.length).filterMap (fun j =>
        let l := (sched.take (j + 1)).foldl clStep latest
        if l.all Option.isSome then some l.reduceOption else none) := by
  induction sched generalizing latest with
  | nil => simp [combineLatestRun]
  | cons e rest ih =>
    rw [List.length_cons, List.range_succ_eq_map, List.filterMap_cons, List.filterMap_map]
    have hcomp : ∀ j ∈ List.range rest.length,
        ((fun j =>
            let l := ((e :: rest).take (j + 1)).foldl clStep latest
            if l.all Option.isSome then some l.reduceOption else none) ∘ Nat.succ) j =
          (fun j =>
            let l := (rest.take (j + 1)).foldl clStep (clStep latest e)
            if l.all Option.isSome then some l.reduceOption else none) j := by
      intro j _
      simp only [Function.comp, Nat.succ_eq_add_one]
      rw [show j + 1 + 1 = j + 2 from rfl, List.take_succ_cons, List.foldl_cons]
    rw [List.filterMap_congr hcomp, ← ih (clStep latest e)]
    simp only [List.take_succ_cons, List.take_zero, List.foldl_cons, List.foldl_nil]
    by_cases hall : (clStep latest e).all Option.isSome
    · simp [combineLatestRun, hall]
    · simp [combineLatestRun, hall]

/-- Claim C8: for every named record of streams (distinct keys), the
observable built by shape-3 `select` behaves exactly as specified: once
every input stream has emitted at least once, each input emission makes
it emit a record with exactly the declared keys in declared order, each
value being the latest value of the corresponding input stream. -/
theorem claim8_select_named_record {Val : Type} (keys : List String)
    (hnd : keys.Nodup) (sched : List (ℕ × Val)) :
    ComponentStore.selectNamed keys sched = specSelectNamed keys sched := by
  unfold ComponentStore.selectNamed specSelectNamed latestValues
  rw [combineLatestRun_spec, List.map_filterMap]
  apply List.filterMap_congr
  intro j _
  simp only
  by_cases hall :
      (((sched.take (j + 1)).foldl clStep (List.replicate keys.length none)).all
        Option.isSome)
  · rw [if_pos hall, if_pos hall, Option.map_some', buildViewModel_eq_zip _ _ hnd]
  · rw [if_neg hall, if_neg hall, Option.map_none']

/-- The claim's concrete example schedule: with record `\x7bx: X, y: Y\x7d`,
stream `X` (index 0) emits `'a'`, stream `Y` (index 1) emits `1`, then
`X` emits `'b'`. -/
def c8Sched : List (ℕ × JSLit) :=
  [(0, JSLit.str "a"), (1, JSLit.num 1), (0, JSLit.str "b")]

theorem claim8_select_named_record_witness :
    ComponentStore.selectNamed ["x", "y"] c8Sched = specSelectNamed ["x", "y"] c8Sched ∧
    ComponentStore.selectNamed ["x", "y"] c8Sched =
      [[("x", JSLit.str "a"), ("y", JSLit.num 1)],
       [("x", JSLit.str "b"), ("y", JSLit.num 1)]] :=
  ⟨claim8_select_named_record ["x", "y"] (by decide) c8Sched, by decide⟩
